import Mathlib

/-!
Verification development for the EventFinder bot (src/events.py and its
refactored modules under src/services, src/handlers, src/models).

Python strings are modelled as lists of characters (`Str`), Python dicts as
association lists with insertion-order semantics (`dictInsert`/`dictGet`),
and timestamps as integers (seconds).  The MD5 hex digest used for event
identity is modelled by its (deterministic) input string: the digest in the
source is a fixed function of exactly that concatenation, so equalities of
concatenations transfer to equalities of digests.
-/

namespace BubbleEvents

/-- Python strings are modelled as lists of characters. -/
abbrev Str := List Char

/-- Coerce a Lean string literal into the character-list model. -/
def str (s : String) : Str := s.toList

/-- Characters Python's str.strip removes (whitespace). -/
def isPySpace (c : Char) : Bool :=
  c = ' ' || c = '\t' || c = '\n' || c = '\r' || c = '\x0b' || c = '\x0c'

/-- Python `s.strip()`: drop whitespace from both ends. -/
def pyStrip (s : Str) : Str :=
  ((s.dropWhile isPySpace).reverse.dropWhile isPySpace).reverse

/-- Python `s.split(sep)` for a one-character separator (keeps empty parts,
returns `[""]` on the empty string). -/
def pySplit (sep : Char) : Str → List Str
  | [] => [[]]
  | c :: rest =>
    if c = sep then [] :: pySplit sep rest
    else
      match pySplit sep rest with
      | [] => [[c]]
      | l :: ls => (c :: l) :: ls

/-- Python `s.split(sep, 1)` for a one-character separator: at most two parts. -/
def pySplitOnce (sep : Char) : Str → List Str
  | [] => [[]]
  | c :: rest =>
    if c = sep then [[], rest]
    else
      match pySplitOnce sep rest with
      | [] => [[c]]
      | l :: ls => (c :: l) :: ls

/-- Python `s.startswith(p)`. -/
def strStarts : Str → Str → Bool
  | [], _ => true
  | _ :: _, [] => false
  | p :: ps, c :: cs => p = c && strStarts ps cs

/-- Python `needle in s` (substring containment). -/
def strContains (needle : Str) : Str → Bool
  | [] => needle.isEmpty
  | c :: rest => strStarts needle (c :: rest) || strContains needle rest

/-- Index of the first occurrence of `needle`, if any. -/
def pyFindAux (needle : Str) : Str → Option Nat
  | [] => if needle.isEmpty then some 0 else none
  | c :: rest =>
    if strStarts needle (c :: rest) then some 0
    else (pyFindAux needle rest).map (· + 1)

/-- Python `s.find(needle)`: first occurrence index, `-1` if absent. -/
def pyFind (needle s : Str) : Int :=
  match pyFindAux needle s with
  | some n => (n : Int)
  | none => -1

/-- Index of the last occurrence of `needle`, if any. -/
def pyRFindAux (needle : Str) : Str → Option Nat
  | [] => if needle.isEmpty then some 0 else none
  | c :: rest =>
    match pyRFindAux needle rest with
    | some n => some (n + 1)
    | none => if strStarts needle (c :: rest) then some 0 else none

/-- Python `s.rfind(needle)`: last occurrence index, `-1` if absent. -/
def pyRFind (needle s : Str) : Int :=
  match pyRFindAux needle s with
  | some n => (n : Int)
  | none => -1

/-- Clamp a (possibly negative) Python slice index into `[0, n]`. -/
def clampIdx (n : Nat) (i : Int) : Nat :=
  if i < 0 then n - (-i).toNat else min i.toNat n

/-- Python `s[a:b]` with full negative-index and clamping semantics. -/
def pySlice (s : Str) (a b : Int) : Str :=
  (s.take (clampIdx s.length b)).drop (clampIdx s.length a)

/-- Join lines with a separator character (inverse of `pySplit` on clean lines). -/
def joinWith (sep : Char) : List Str → Str
  | [] => []
  | [l] => l
  | l :: ls => l ++ sep :: joinWith sep ls

/-- Python dict assignment `m[k] = v` on an insertion-ordered association list:
replace in place if the key is present, else append at the end. -/
def dictInsert {α β : Type} [DecidableEq α] (k : α) (v : β) : List (α × β) → List (α × β)
  | [] => [(k, v)]
  | (k', v') :: rest => if k' = k then (k, v) :: rest else (k', v') :: dictInsert k v rest

/-- Python dict lookup `m.get(k)`. -/
def dictGet {α β : Type} [DecidableEq α] (k : α) : List (α × β) → Option β
  | [] => none
  | (k', v') :: rest => if k' = k then some v' else dictGet k rest

/-- An event record as produced by `parse_events`: a Python dict whose five
recognised fields may each be present or absent. -/
structure Event where
  title : Option Str := none
  date : Option Str := none
  location : Option Str := none
  description : Option Str := none
  url : Option Str := none
deriving DecidableEq, Repr

/-- The empty Python dict `{}` used for `current_event`. -/
def emptyEvent : Event := {}

/-- Python truthiness of the `current_event` dict: at least one field assigned. -/
def eventNonEmpty (e : Event) : Bool :=
  e.title.isSome || e.date.isSome || e.location.isSome ||
    e.description.isSome || e.url.isSome

/-- CONFIG max_results. -/
def max_results : Nat := 5

/-- CONFIG max_description_length. -/
def max_description_length : Nat := 300

/-- CONFIG notification_expire_days. -/
def notification_expire_days : Int := 7

/-- Event identity, from `generate_event_hash` in src/events.py lines 262-265:
the MD5 hex digest of `title + date + location` with missing fields as the
empty string.  The digest function itself is modelled by its input
concatenation (see the file header). -/
def generate_event_hash (event : Event) : Str :=
  event.title.getD [] ++ event.date.getD [] ++ event.location.getD []

/-- Field value extraction `line.split(":", 1)[1].strip()` used by the
field-label branches of `parse_events`. -/
def fieldValue (line : Str) : Str :=
  pyStrip ((pySplitOnce ':' line).getD 1 [])

/-- One iteration of the `for line in raw_data.split("\n")` loop body of
`parse_events` (src/events.py lines 236-256), acting on the accumulator
`(events, current_event)`. -/
def parseStep (st : List Event × Event) (rawLine : Str) : List Event × Event :=
  let events := st.1
  let cur := st.2
  let line := pyStrip rawLine
  if line.isEmpty || strStarts (str "### Events in") line then
    (events, cur)
  else if !line.isEmpty && (line.headD ' ').isDigit && strContains (str ". **") line then
    let events := if eventNonEmpty cur then events ++ [cur] else events
    let titleStart := pyFind (str "**") line + 2
    let titleEnd := pyRFind (str "**") line
    (events, { emptyEvent with title := some (pyStrip (pySlice line titleStart titleEnd)) })
  else if strStarts (str "- Date:") line then
    (events, { cur with date := some (fieldValue line) })
  else if strStarts (str "- Location:") line then
    (events, { cur with location := some (fieldValue line) })
  else if strStarts (str "- Description:") line then
    (events, { cur with description := some ((fieldValue line).take max_description_length) })
  else if strStarts (str "- URL:") line then
    (events, { cur with url := some (fieldValue line) })
  else
    (events, cur)

/-- The final flush of `parse_events` (src/events.py lines 257-258): append
the still-accumulated event when the dict is non-empty. -/
def finishParse (st : List Event × Event) : List Event :=
  if eventNonEmpty st.2 then st.1 ++ [st.2] else st.1

/-- Event Parser, from `parse_events` in src/events.py lines 223-259:
scan the lines, flush the accumulated event on each numbered title line and
at the end, and truncate the result to `max_results`. -/
def parse_events (raw_data : Str) : List Event :=
  (finishParse ((pySplit '\n' raw_data).foldl parseStep ([], emptyEvent))).take max_results

/-- Aggregation step of `search_events` (src/events.py lines 325-329): the
insertion-ordered dict built by `aggregated_events[event_hash] = event` over
all per-category result lists. -/
def search_events_aggregate (results : List (List Event)) : List (Str × Event) :=
  results.foldl
    (fun m events => events.foldl (fun m event => dictInsert (generate_event_hash event) event m) m)
    []

/-- Category Search Dispatcher merge, from `search_events` in src/events.py
lines 314-330, as a function of the per-category parsed result lists
(the awaited `results` of the gather): `list(aggregated_events.values())`. -/
def search_events (results : List (List Event)) : List Event :=
  (search_events_aggregate results).map Prod.snd

/-- The `event_hash in sent_events and (current_time - sent_events[event_hash]
< expire_seconds)` skip condition of `send_event_notifications`
(src/events.py line 449). -/
def skip_notification (expireSeconds now : Int) (sentEvents : List (Str × Int)) (h : Str) : Bool :=
  match dictGet h sentEvents with
  | some t => now - t < expireSeconds
  | none => false

/-- State threaded through the per-event loop of `send_event_notifications`:
the pending-detail cache, the stored sent-events record (updated by
`add_sent_event`, which re-reads then upserts), and the messages delivered. -/
structure NotifyState where
  pending : List (Str × Event)
  db : List (Str × Int)
  delivered : List Event
deriving DecidableEq, Repr

/-- One iteration of the `for event in events` loop of
`send_event_notifications` (src/events.py lines 446-469): skip if already
sent and unexpired, otherwise cache the detail, deliver, and record `now`. -/
def send_event_notifications_step (expireSeconds now : Int) (sentEvents : List (Str × Int))
    (st : NotifyState) (event : Event) : NotifyState :=
  let event_hash := generate_event_hash event
  if skip_notification expireSeconds now sentEvents event_hash then st
  else
    { pending := dictInsert event_hash event st.pending
      db := dictInsert event_hash now st.db
      delivered := st.delivered ++ [event] }

/-- Per-user body of the Notification Cycle `send_event_notifications`
(src/events.py lines 439-471): fold the per-event loop over the events of
one cycle, starting from the stored sent-events snapshot. -/
def send_event_notifications_user (expireSeconds now : Int) (sentEvents : List (Str × Int))
    (pending : List (Str × Event)) (events : List Event) : NotifyState :=
  events.foldl (send_event_notifications_step expireSeconds now sentEvents)
    { pending := pending, db := sentEvents, delivered := [] }

/-- A user profile, from `UserProfile` in src/models/user_profile.py. -/
structure UserProfile where
  address : Str := []
  interests : List (Str × Str) := []
  liked_keywords : List Str := []
  disliked_keywords : List Str := []
  email : Str := []
  current_category : Option Str := none
deriving DecidableEq, Repr

/-- The distinct `query.answer(...)` acknowledgement messages of
`handle_feedback` (src/events.py lines 474-525). -/
inductive FeedbackAnswer where
  | invalidFeedbackData
  | addedToPreferences
  | emailSentWithDetails
  | eventDetailsNotFound
  | setYourEmail
  | avoidSimilarEvents
deriving DecidableEq, Repr

/-- The state `handle_feedback` reads and writes: the in-memory profiles,
the pending-detail cache, and the events_feedback table keyed by
(user_id, event_hash). -/
structure FeedbackEnv where
  user_profiles : List (Int × UserProfile)
  pending_event_details : List (Str × Event)
  feedbackStore : List ((Int × Str) × Int)
deriving DecidableEq, Repr

/-- Result of one `handle_feedback` call: the updated state, the recipient
of the asynchronously dispatched email if one was attempted, and the
acknowledgements sent. -/
structure FeedbackResult where
  env : FeedbackEnv
  emailTo : Option Str
  answers : List FeedbackAnswer
deriving DecidableEq, Repr

/-- Feedback Sink, from `handle_feedback` in src/events.py lines 474-525
(identically src/handlers/callbacks.py lines 7-54): split the callback
payload on `_`; reject unless exactly two parts; upsert the signed vote
(`1 if action == "like" else -1`); on "like" attempt the detail email when
the profile has a non-empty email and the pending cache has the hash. -/
def handle_feedback (user_id : Int) (payload : Str) (env : FeedbackEnv) : FeedbackResult :=
  let data := pySplit '_' payload
  if data.length ≠ 2 then
    { env := env, emailTo := none, answers := [.invalidFeedbackData] }
  else
    let action := data.headD []
    let event_hash := data.getD 1 []
    let env := { env with
      feedbackStore :=
        dictInsert (user_id, event_hash) (if action = str "like" then 1 else -1)
          env.feedbackStore }
    if action = str "like" then
      match dictGet user_id env.user_profiles with
      | some profile =>
        if !profile.email.isEmpty then
          match dictGet event_hash env.pending_event_details with
          | some _ =>
            { env := env, emailTo := some profile.email
              answers := [.addedToPreferences, .emailSentWithDetails] }
          | none =>
            { env := env, emailTo := none
              answers := [.addedToPreferences, .eventDetailsNotFound] }
        else
          { env := env, emailTo := none
            answers := [.addedToPreferences, .setYourEmail] }
      | none =>
        { env := env, emailTo := none
          answers := [.addedToPreferences, .setYourEmail] }
    else
      { env := env, emailTo := none, answers := [.avoidSimilarEvents] }

/-- A sequence of feedback invocations (user, raw payload) applied through
`handle_feedback`, keeping only the resulting state. -/
def runFeedbacks (ops : List (Int × Str)) (env : FeedbackEnv) : FeedbackEnv :=
  ops.foldl (fun env op => (handle_feedback op.1 op.2 env).env) env

/-- The persisted `sent_events` column for one user: NULL/empty, the legacy
plain-list JSON shape, the timestamped-mapping shape, or unparseable JSON. -/
inductive StoredSentEvents where
  | empty
  | legacyList (ids : List Str)
  | timedMap (m : List (Str × Int))
  | corrupt
deriving DecidableEq, Repr

/-- `EventBot.get_sent_events` (src/events.py lines 188-202): missing or
unparseable data reads as `{}`; a legacy list reads as a dict mapping each
listed identity to timestamp 0; a dict reads as itself. -/
def get_sent_events : StoredSentEvents → List (Str × Int)
  | .empty => []
  | .legacyList ids => ids.map (fun ev => (ev, 0))
  | .timedMap m => m
  | .corrupt => []

/-- `EventBot.add_sent_event` (src/events.py lines 204-213): read the stored
record through `get_sent_events`, record `now` against the hash, and write
the (always timestamped-mapping) JSON form back. -/
def add_sent_event (event_hash : Str) (now : Int) (cell : StoredSentEvents) : StoredSentEvents :=
  .timedMap (dictInsert event_hash now (get_sent_events cell))

/-- Field contents of one well-formed numbered entry fed to the parser. -/
structure EntryFields where
  etitle : Str
  edate : Str
  elocation : Str
  edescription : Str
  eurl : Str
deriving DecidableEq, Repr

/-- A field value is clean when it is non-empty, newline-free, and has no
leading or trailing whitespace (so strip leaves it verbatim). -/
def cleanStr (s : Str) : Bool :=
  !s.isEmpty && s.all (fun c => c ≠ '\n') &&
    !isPySpace (s.headD ' ') && !isPySpace (s.getLastD ' ')

/-- A numbering label is a non-empty string of decimal digits. -/
def labelOk (l : Str) : Bool :=
  !l.isEmpty && l.all Char.isDigit

/-- All five fields of an entry are clean. -/
def entryClean (e : EntryFields) : Bool :=
  cleanStr e.etitle && cleanStr e.edate && cleanStr e.elocation &&
    cleanStr e.edescription && cleanStr e.eurl

/-- The five lines of one numbered entry in the documented input format:
a bold-marked numbered title line followed by the four field-label lines. -/
def renderEntry (label : Str) (e : EntryFields) : List Str :=
  [label ++ str ". **" ++ e.etitle ++ str "**",
   str "- Date: " ++ e.edate,
   str "- Location: " ++ e.elocation,
   str "- Description: " ++ e.edescription,
   str "- URL: " ++ e.eurl]

/-- A well-formed input block: the numbered entries' lines joined by
newlines. -/
def renderBlock (entries : List (Str × EntryFields)) : Str :=
  joinWith '\n' ((entries.map (fun p => renderEntry p.1 p.2)).flatten)

/-- The event record a well-formed entry parses to: all five fields
populated, the description truncated to `max_description_length`. -/
def entryEvent (e : EntryFields) : Event :=
  { title := some e.etitle, date := some e.edate, location := some e.elocation
    description := some (e.edescription.take max_description_length)
    url := some e.eurl }

/-- A (stripped) line that drives no branch of the parser loop body towards
an event: empty, the known section header, or matching none of the
recognised patterns. -/
def benignLine (line : Str) : Bool :=
  line.isEmpty || strStarts (str "### Events in") line ||
    (!(!line.isEmpty && (line.headD ' ').isDigit && strContains (str ". **") line) &&
     !strStarts (str "- Date:") line && !strStarts (str "- Location:") line &&
     !strStarts (str "- Description:") line && !strStarts (str "- URL:") line)

/-- A string with no newline character (one logical line). -/
def noNL (s : Str) : Bool := s.all (fun c => c ≠ '\n')

end BubbleEvents

namespace BubbleEvents

/- General lemmas about the Python-dict model. -/

theorem dictGet_dictInsert_self {α β : Type} [DecidableEq α] (k : α) (v : β)
    (m : List (α × β)) : dictGet k (dictInsert k v m) = some v := by
  induction m with
  | nil => simp [dictInsert, dictGet]
  | cons p rest ih =>
    obtain ⟨k', v'⟩ := p
    by_cases h : k' = k <;> simp [dictInsert, dictGet, h, ih]

theorem dictGet_dictInsert_ne {α β : Type} [DecidableEq α] {k a : α} (v : β)
    (m : List (α × β)) (hne : a ≠ k) : dictGet a (dictInsert k v m) = dictGet a m := by
  have hka : ¬k = a := fun h => hne h.symm
  induction m with
  | nil => simp [dictInsert, dictGet, hka]
  | cons p rest ih =>
    obtain ⟨k', v'⟩ := p
    by_cases h : k' = k
    · subst h
      simp [dictInsert, dictGet, hka, ih]
    · by_cases h' : k' = a <;> simp [dictInsert, dictGet, h, h', hka, hne, ih]

theorem mem_keys_dictInsert {α β : Type} [DecidableEq α] {a k : α} {v : β}
    {m : List (α × β)} :
    a ∈ (dictInsert k v m).map Prod.fst ↔ a = k ∨ a ∈ m.map Prod.fst := by
  induction m with
  | nil => simp [dictInsert]
  | cons p rest ih =>
    obtain ⟨k', v'⟩ := p
    by_cases h : k' = k
    · subst h
      by_cases ha : a = k' <;> simp [dictInsert, ha]
    · simp [dictInsert, h, ih]
      tauto

theorem nodupKeys_dictInsert {α β : Type} [DecidableEq α] (k : α) (v : β)
    {m : List (α × β)} (h : (m.map Prod.fst).Nodup) :
    ((dictInsert k v m).map Prod.fst).Nodup := by
  induction m with
  | nil => simp [dictInsert]
  | cons p rest ih =>
    obtain ⟨k', v'⟩ := p
    simp only [List.map_cons, List.nodup_cons] at h
    by_cases hk : k' = k
    · subst hk
      simpa [dictInsert] using h
    · simp only [dictInsert, hk, if_false, List.map_cons, List.nodup_cons]
      refine ⟨fun hmem => ?_, ih h.2⟩
      rcases mem_keys_dictInsert.mp hmem with rfl | hmem'
      · exact hk rfl
      · exact h.1 hmem'

theorem dictGet_of_mem_nodup {α β : Type} [DecidableEq α] {m : List (α × β)}
    {p : α × β} (hnd : (m.map Prod.fst).Nodup) (hmem : p ∈ m) :
    dictGet p.1 m = some p.2 := by
  induction m with
  | nil => cases hmem
  | cons q rest ih =>
    obtain ⟨k', v'⟩ := q
    simp only [List.map_cons, List.nodup_cons] at hnd
    rcases List.mem_cons.mp hmem with heq | hmem'
    · subst heq
      simp [dictGet]
    · have hne : k' ≠ p.1 := by
        intro h
        exact hnd.1 (h ▸ List.mem_map_of_mem Prod.fst hmem')
      simp [dictGet, hne, ih hnd.2 hmem']

theorem mem_dictInsert {α β : Type} [DecidableEq α] {k : α} {v : β}
    {m : List (α × β)} {p : α × β} (h : p ∈ dictInsert k v m) :
    p = (k, v) ∨ p ∈ m := by
  induction m with
  | nil => simpa [dictInsert] using h
  | cons q rest ih =>
    obtain ⟨k', v'⟩ := q
    by_cases hk : k' = k
    · subst hk
      rcases (by simpa [dictInsert] using h : p = (k', v) ∨ p ∈ rest) with rfl | hmem
      · exact Or.inl rfl
      · exact Or.inr (List.mem_cons_of_mem _ hmem)
    · rcases (by simpa [dictInsert, hk] using h : p = (k', v') ∨ p ∈ dictInsert k v rest)
        with rfl | hmem
      · exact Or.inr (List.mem_cons_self _ _)
      · rcases ih hmem with h' | h'
        · exact Or.inl h'
        · exact Or.inr (List.mem_cons_of_mem _ h')

theorem countP_keys_eq_zero_of_not_mem {α β : Type} [DecidableEq α]
    {m : List (α × β)} {a : α} (h : a ∉ m.map Prod.fst) :
    m.countP (fun p => p.1 = a) = 0 := by
  rw [List.countP_eq_zero]
  intro p hp
  simp only [decide_eq_true_eq]
  intro heq
  exact h (heq ▸ List.mem_map_of_mem Prod.fst hp)

theorem countP_keys_le_one {α β : Type} [DecidableEq α]
    {m : List (α × β)} (hnd : (m.map Prod.fst).Nodup) (a : α) :
    m.countP (fun p => p.1 = a) ≤ 1 := by
  induction m with
  | nil => simp
  | cons p rest ih =>
    obtain ⟨k', v'⟩ := p
    simp only [List.map_cons, List.nodup_cons] at hnd
    by_cases h : k' = a
    · subst h
      rw [List.countP_cons]
      simp [countP_keys_eq_zero_of_not_mem hnd.1]
    · rw [List.countP_cons]
      simpa [h] using ih hnd.2

/- Lemmas about the Feedback Sink. -/

theorem handle_feedback_profiles_pending (user_id : Int) (payload : Str) (env : FeedbackEnv) :
    (handle_feedback user_id payload env).env.user_profiles = env.user_profiles ∧
      (handle_feedback user_id payload env).env.pending_event_details =
        env.pending_event_details := by
  simp only [handle_feedback]
  split
  · exact ⟨rfl, rfl⟩
  · split
    · split <;> (try split) <;> (try split) <;> exact ⟨rfl, rfl⟩
    · exact ⟨rfl, rfl⟩

theorem handle_feedback_feedbackStore (user_id : Int) (payload : Str) (env : FeedbackEnv) :
    (handle_feedback user_id payload env).env.feedbackStore = env.feedbackStore ∨
      (handle_feedback user_id payload env).env.feedbackStore =
        dictInsert (user_id, (pySplit '_' payload).getD 1 [])
          (if (pySplit '_' payload).headD [] = str "like" then 1 else -1)
          env.feedbackStore := by
  simp only [handle_feedback]
  split
  · exact Or.inl rfl
  · split
    · split <;> (try split) <;> (try split) <;> exact Or.inr rfl
    · exact Or.inr rfl

theorem nodupKeys_handle_feedback (user_id : Int) (payload : Str) (env : FeedbackEnv)
    (h : (env.feedbackStore.map Prod.fst).Nodup) :
    (((handle_feedback user_id payload env).env.feedbackStore).map Prod.fst).Nodup := by
  rcases handle_feedback_feedbackStore user_id payload env with heq | heq
  · rw [heq]; exact h
  · rw [heq]; exact nodupKeys_dictInsert _ _ h

theorem nodupKeys_runFeedbacks (ops : List (Int × Str)) (env : FeedbackEnv)
    (h : (env.feedbackStore.map Prod.fst).Nodup) :
    (((runFeedbacks ops env).feedbackStore).map Prod.fst).Nodup := by
  induction ops generalizing env with
  | nil => exact h
  | cons op rest ih =>
    exact ih _ (nodupKeys_handle_feedback op.1 op.2 env h)

end BubbleEvents

namespace BubbleEvents

/-- C2 counterexample: the digest input concatenates title, date and location
with no separator, so the events `{title: "ab"}` and `{title: "a", date: "b"}`
have equal identity while disagreeing on title (and date): the claimed
"only if" direction of the identity characterisation is false on the code. -/
theorem C2_identity_iff_counterexample :
    ¬ (generate_event_hash { title := some (str "ab") } =
          generate_event_hash { title := some (str "a"), date := some (str "b") } ↔
        (({ title := some (str "ab") } : Event).title.getD [] =
            ({ title := some (str "a"), date := some (str "b") } : Event).title.getD [] ∧
          ({ title := some (str "ab") } : Event).date.getD [] =
            ({ title := some (str "a"), date := some (str "b") } : Event).date.getD [] ∧
          ({ title := some (str "ab") } : Event).location.getD [] =
            ({ title := some (str "a"), date := some (str "b") } : Event).location.getD [])) := by
  decide

/-- C2 (amended): event identity is a pure function of exactly
(title, date, location) with missing fields read as the empty string — two
events agreeing on those three fields have equal identity regardless of
description and url; the converse fails because the three fields are
concatenated without a separator before digesting. -/
theorem C2_identity_of_fields (e1 e2 : Event)
    (ht : e1.title.getD [] = e2.title.getD [])
    (hd : e1.date.getD [] = e2.date.getD [])
    (hl : e1.location.getD [] = e2.location.getD []) :
    generate_event_hash e1 = generate_event_hash e2 := by
  simp [generate_event_hash, ht, hd, hl]

/-- C2 witness: the identity function evaluated on two concrete events that
agree on the three fields but differ in description. -/
theorem C2_identity_of_fields_witness :
    generate_event_hash { title := some (str "T"), date := some (str "D"),
                          location := some (str "L"), description := some (str "x") } =
      generate_event_hash { title := some (str "T"), date := some (str "D"),
                            location := some (str "L"), description := some (str "y") } :=
  C2_identity_of_fields _ _ (by decide) (by decide) (by decide)

/-- C8: a feedback payload that does not split into exactly two parts on the
underscore delimiter is answered with the error acknowledgement and causes
no state change at all: no feedback row, no email, profiles and
pending-detail cache untouched. -/
theorem C8_malformed_feedback (user_id : Int) (payload : Str) (env : FeedbackEnv)
    (h : (pySplit '_' payload).length ≠ 2) :
    handle_feedback user_id payload env =
      { env := env, emailTo := none, answers := [.invalidFeedbackData] } := by
  unfold handle_feedback
  simp [h]

/-- C8 witness: a three-part payload is rejected without touching any state. -/
theorem C8_malformed_feedback_witness :
    handle_feedback 7 (str "like_ab_extra")
        ⟨[(7, { email := str "u@x" })], [(str "ab", { title := some (str "T") })], []⟩ =
      { env := ⟨[(7, { email := str "u@x" })], [(str "ab", { title := some (str "T") })], []⟩,
        emailTo := none, answers := [.invalidFeedbackData] } :=
  C8_malformed_feedback 7 (str "like_ab_extra") _ (by decide)

/-- C10: for a well-formed two-part payload whose action tag is anything
other than "like", the Feedback Sink records the vote value -1 for the
(user, event-identity) pair and acknowledges without attempting an email. -/
theorem C10_non_like_records_dislike (user_id : Int) (payload action event_hash : Str)
    (env : FeedbackEnv) (hdata : pySplit '_' payload = [action, event_hash])
    (hne : action ≠ str "like") :
    (handle_feedback user_id payload env).env.feedbackStore =
        dictInsert (user_id, event_hash) (-1) env.feedbackStore ∧
      dictGet (user_id, event_hash) (handle_feedback user_id payload env).env.feedbackStore =
        some (-1) ∧
      (handle_feedback user_id payload env).emailTo = none ∧
      (handle_feedback user_id payload env).answers = [.avoidSimilarEvents] := by
  unfold handle_feedback
  rw [hdata]
  simp [hne, dictGet_dictInsert_self]

/-- C10 witness: an unrecognised tag ("superlike") records -1 and sends no
email, even with a registered email and a cache hit available. -/
/- Character and Python-string lemmas used for the parser round trip. -/

theorem decide_eq_false_left {c a : Char} (hc : c.isDigit = true) (ha : a.isDigit = false) :
    (decide (c = a)) = false := by
  refine decide_eq_false (fun he => ?_)
  rw [← he] at ha
  rw [hc] at ha
  exact Bool.noConfusion ha

theorem decide_eq_false_right {a c : Char} (hc : c.isDigit = true) (ha : a.isDigit = false) :
    (decide (a = c)) = false := by
  refine decide_eq_false (fun he => ?_)
  rw [he] at ha
  rw [hc] at ha
  exact Bool.noConfusion ha

theorem isPySpace_eq_false_of_isDigit {c : Char} (hc : c.isDigit = true) :
    isPySpace c = false := by
  unfold isPySpace
  rw [decide_eq_false_left hc (by decide), decide_eq_false_left hc (by decide),
    decide_eq_false_left hc (by decide), decide_eq_false_left hc (by decide),
    decide_eq_false_left hc (by decide), decide_eq_false_left hc (by decide)]
  rfl

theorem cleanStr_parts {s : Str} (h : cleanStr s = true) :
    s ≠ [] ∧ noNL s = true ∧ isPySpace (s.headD ' ') = false ∧
      isPySpace (s.getLastD ' ') = false := by
  unfold cleanStr at h
  cases hb1 : s.isEmpty <;> cases hb2 : s.all (fun c => c ≠ '\n') <;>
    cases hb3 : isPySpace (s.headD ' ') <;> cases hb4 : isPySpace (s.getLastD ' ') <;>
      simp_all [noNL, List.isEmpty_iff]

theorem dropWhile_isPySpace_eq_self {s : Str} (h : isPySpace (s.headD ' ') = false) :
    s.dropWhile isPySpace = s := by
  cases s with
  | nil => rfl
  | cons c t =>
    simp only [List.headD_cons] at h
    simp [List.dropWhile_cons, h]

theorem headD_reverse (s : Str) (d : Char) : s.reverse.headD d = s.getLastD d := by
  rw [List.headD_eq_head?, List.head?_reverse, List.getLastD_eq_getLast?]

theorem pyStrip_eq_self {s : Str} (h1 : isPySpace (s.headD ' ') = false)
    (h2 : isPySpace (s.getLastD ' ') = false) : pyStrip s = s := by
  unfold pyStrip
  rw [dropWhile_isPySpace_eq_self h1,
    dropWhile_isPySpace_eq_self (by rw [headD_reverse]; exact h2), List.reverse_reverse]

theorem pyStrip_cons_space (d : Str) : pyStrip (' ' :: d) = pyStrip d := by
  unfold pyStrip
  rw [List.dropWhile_cons, if_pos (by decide : isPySpace ' ' = true)]

theorem getLastD_append (l r : Str) (hr : r ≠ []) (d : Char) :
    (l ++ r).getLastD d = r.getLastD d := by
  rw [List.getLastD_eq_getLast?, List.getLastD_eq_getLast?,
    List.getLast?_append_of_ne_nil _ hr]

theorem strStarts_cons (p : Char) (ps : Str) (c : Char) (cs : Str) :
    strStarts (p :: ps) (c :: cs) = ((p = c) && strStarts ps cs) := rfl

theorem strStarts_append_self (n b : Str) : strStarts n (n ++ b) = true := by
  induction n with
  | nil => rfl
  | cons p ps ih => simp [strStarts_cons, ih]

theorem strContains_of_strStarts {n s : Str} (h : strStarts n s = true) :
    strContains n s = true := by
  cases s with
  | nil =>
    cases n with
    | nil => rfl
    | cons p ps => exact Bool.noConfusion h
  | cons c cs => simp [strContains, h]

theorem strContains_append (n a b : Str) : strContains n (a ++ (n ++ b)) = true := by
  induction a with
  | nil => exact strContains_of_strStarts (strStarts_append_self n b)
  | cons c a' ih => simp [strContains, ih]

theorem pyFindAux_title (label : Str) (hdig : ∀ ch ∈ label, ch.isDigit = true) (r : Str) :
    pyFindAux (str "**") (label ++ (str ". **" ++ r)) = some (label.length + 2) := by
  induction label with
  | nil => rfl
  | cons c label' ih =>
    have hc : c.isDigit = true := hdig c (List.mem_cons_self c label')
    have hstep : strStarts (str "**") (c :: (label' ++ (str ". **" ++ r))) = false := by
      rw [show str "**" = '*' :: str "*" from rfl, strStarts_cons,
        decide_eq_false_right hc (by decide), Bool.false_and]
    rw [show (c :: label') ++ (str ". **" ++ r) = c :: (label' ++ (str ". **" ++ r))
        from rfl]
    unfold pyFindAux
    rw [hstep]
    simp [ih (fun ch hch => hdig ch (List.mem_cons_of_mem c hch))]

theorem pyFind_title (label r : Str) (hdig : ∀ ch ∈ label, ch.isDigit = true) :
    pyFind (str "**") (label ++ (str ". **" ++ r)) = (label.length : Int) + 2 := by
  unfold pyFind
  rw [pyFindAux_title label hdig r]
  push_cast
  ring

theorem pyRFindAux_end (s : Str) :
    pyRFindAux (str "**") (s ++ str "**") = some s.length := by
  induction s with
  | nil => rfl
  | cons c s' ih =>
    rw [show (c :: s') ++ str "**" = c :: (s' ++ str "**") from rfl]
    unfold pyRFindAux
    rw [ih]
    rfl

theorem pyRFind_end (s : Str) : pyRFind (str "**") (s ++ str "**") = (s.length : Int) := by
  unfold pyRFind
  rw [pyRFindAux_end s]

theorem pySlice_middle (A t B : Str) (a b : Int) (ha : a = (A.length : Int))
    (hb : b = (A.length : Int) + (t.length : Int)) : pySlice ((A ++ t) ++ B) a b = t := by
  subst ha hb
  unfold pySlice clampIdx
  rw [if_neg (by omega), if_neg (by omega)]
  have hta : ((A.length : Int)).toNat = A.length := by omega
  have htb : ((A.length : Int) + (t.length : Int)).toNat = A.length + t.length := by omega
  rw [hta, htb]
  have hlen : ((A ++ t) ++ B).length = A.length + t.length + B.length := by
    rw [List.length_append, List.length_append]
  have hmin1 : min (A.length + t.length) (((A ++ t) ++ B).length) = A.length + t.length := by
    rw [hlen]; omega
  have hmin2 : min A.length (((A ++ t) ++ B).length) = A.length := by
    rw [hlen]; omega
  rw [hmin1, hmin2]
  rw [show A.length + t.length = (A ++ t).length by simp [List.length_append]]
  rw [List.take_left, List.drop_left]

theorem labelOk_parts {l : Str} (h : labelOk l = true) :
    l ≠ [] ∧ ∀ ch ∈ l, ch.isDigit = true := by
  unfold labelOk at h
  cases hb1 : l.isEmpty <;> cases hb2 : l.all Char.isDigit <;>
    simp_all [List.isEmpty_iff, List.all_eq_true]

theorem parseStep_title (evs : List Event) (cur : Event) (label t : Str)
    (hl : labelOk label = true) (ht : cleanStr t = true) :
    parseStep (evs, cur) (label ++ str ". **" ++ t ++ str "**") =
      (if eventNonEmpty cur then evs ++ [cur] else evs,
        { emptyEvent with title := some t }) := by
  obtain ⟨hlne, hdig⟩ := labelOk_parts hl
  obtain ⟨htne, htnl, hthead, htlast⟩ := cleanStr_parts ht
  cases label with
  | nil => exact absurd rfl hlne
  | cons c label' =>
    have hdigc : c.isDigit = true := hdig c (List.mem_cons_self c label')
    have hhead : ((c :: label') ++ str ". **" ++ t ++ str "**").headD ' ' = c := rfl
    have hstrip : pyStrip ((c :: label') ++ str ". **" ++ t ++ str "**") =
        (c :: label') ++ str ". **" ++ t ++ str "**" := by
      refine pyStrip_eq_self ?_ ?_
      · rw [hhead]
        exact isPySpace_eq_false_of_isDigit hdigc
      · rw [getLastD_append _ _ (by decide)]
        decide
    have hc1a : ((c :: label') ++ str ". **" ++ t ++ str "**").isEmpty = false := rfl
    have hc1b : strStarts (str "### Events in")
        ((c :: label') ++ str ". **" ++ t ++ str "**") = false := by
      rw [show (c :: label') ++ str ". **" ++ t ++ str "**" =
          c :: (label' ++ str ". **" ++ t ++ str "**") from rfl,
        show str "### Events in" = '#' :: str "## Events in" from rfl, strStarts_cons,
        decide_eq_false_right hdigc (by decide), Bool.false_and]
    have hcont : strContains (str ". **") ((c :: label') ++ str ". **" ++ t ++ str "**")
        = true := by
      rw [show (c :: label') ++ str ". **" ++ t ++ str "**" =
          (c :: label') ++ (str ". **" ++ (t ++ str "**")) from by
            simp [List.append_assoc]]
      exact strContains_append _ _ _
    have hfind : pyFind (str "**") ((c :: label') ++ str ". **" ++ t ++ str "**") =
        ((c :: label').length : Int) + 2 := by
      rw [show (c :: label') ++ str ". **" ++ t ++ str "**" =
          (c :: label') ++ (str ". **" ++ (t ++ str "**")) from by
            simp [List.append_assoc]]
      exact pyFind_title _ _ hdig
    have hrfind : pyRFind (str "**") ((c :: label') ++ str ". **" ++ t ++ str "**") =
        (((c :: label') ++ str ". **" ++ t).length : Int) :=
      pyRFind_end _
    have hA : ((c :: label') ++ str ". **").length = (c :: label').length + 4 := by
      rw [List.length_append]
      rfl
    simp only [parseStep]
    rw [hstrip]
    rw [if_neg (by rw [hc1a, hc1b]; decide)]
    rw [if_pos (by rw [hc1a, hhead, hdigc, hcont]; decide)]
    rw [hfind, hrfind]
    rw [pySlice_middle ((c :: label') ++ str ". **") t (str "**") _ _
        (by rw [hA]; push_cast; ring)
        (by rw [List.length_append, hA]; push_cast; ring),
      pyStrip_eq_self hthead htlast]

theorem parseStep_date (evs : List Event) (cur : Event) (d : Str)
    (hd : cleanStr d = true) :
    parseStep (evs, cur) (str "- Date: " ++ d) = (evs, { cur with date := some d }) := by
  obtain ⟨hne, hnl, hhd, hld⟩ := cleanStr_parts hd
  have hstrip : pyStrip (str "- Date: " ++ d) = str "- Date: " ++ d := by
    refine pyStrip_eq_self rfl ?_
    rw [getLastD_append _ _ hne]
    exact hld
  have hfv : fieldValue (str "- Date: " ++ d) = d := by
    unfold fieldValue
    rw [show (pySplitOnce ':' (str "- Date: " ++ d)).getD 1 [] = ' ' :: d from rfl,
      pyStrip_cons_space, pyStrip_eq_self hhd hld]
  simp only [parseStep]
  rw [hstrip]
  rw [if_neg (fun h => Bool.noConfusion h)]
  rw [if_neg (fun h => Bool.noConfusion h)]
  rw [if_pos (show strStarts (str "- Date:") (str "- Date: " ++ d) = true from rfl)]
  rw [hfv]

theorem parseStep_location (evs : List Event) (cur : Event) (d : Str)
    (hd : cleanStr d = true) :
    parseStep (evs, cur) (str "- Location: " ++ d) =
      (evs, { cur with location := some d }) := by
  obtain ⟨hne, hnl, hhd, hld⟩ := cleanStr_parts hd
  have hstrip : pyStrip (str "- Location: " ++ d) = str "- Location: " ++ d := by
    refine pyStrip_eq_self rfl ?_
    rw [getLastD_append _ _ hne]
    exact hld
  have hfv : fieldValue (str "- Location: " ++ d) = d := by
    unfold fieldValue
    rw [show (pySplitOnce ':' (str "- Location: " ++ d)).getD 1 [] = ' ' :: d from rfl,
      pyStrip_cons_space, pyStrip_eq_self hhd hld]
  simp only [parseStep]
  rw [hstrip]
  rw [if_neg (fun h => Bool.noConfusion h)]
  rw [if_neg (fun h => Bool.noConfusion h)]
  rw [if_neg (fun h => Bool.noConfusion h)]
  rw [if_pos (show strStarts (str "- Location:") (str "- Location: " ++ d) = true from rfl)]
  rw [hfv]

theorem parseStep_description (evs : List Event) (cur : Event) (d : Str)
    (hd : cleanStr d = true) :
    parseStep (evs, cur) (str "- Description: " ++ d) =
      (evs, { cur with description := some (d.take max_description_length) }) := by
  obtain ⟨hne, hnl, hhd, hld⟩ := cleanStr_parts hd
  have hstrip : pyStrip (str "- Description: " ++ d) = str "- Description: " ++ d := by
    refine pyStrip_eq_self rfl ?_
    rw [getLastD_append _ _ hne]
    exact hld
  have hfv : fieldValue (str "- Description: " ++ d) = d := by
    unfold fieldValue
    rw [show (pySplitOnce ':' (str "- Description: " ++ d)).getD 1 [] = ' ' :: d from rfl,
      pyStrip_cons_space, pyStrip_eq_self hhd hld]
  simp only [parseStep]
  rw [hstrip]
  rw [if_neg (fun h => Bool.noConfusion h)]
  rw [if_neg (fun h => Bool.noConfusion h)]
  rw [if_neg (fun h => Bool.noConfusion h)]
  rw [if_neg (fun h => Bool.noConfusion h)]
  rw [if_pos
    (show strStarts (str "- Description:") (str "- Description: " ++ d) = true from rfl)]
  rw [hfv]

theorem parseStep_url (evs : List Event) (cur : Event) (d : Str)
    (hd : cleanStr d = true) :
    parseStep (evs, cur) (str "- URL: " ++ d) = (evs, { cur with url := some d }) := by
  obtain ⟨hne, hnl, hhd, hld⟩ := cleanStr_parts hd
  have hstrip : pyStrip (str "- URL: " ++ d) = str "- URL: " ++ d := by
    refine pyStrip_eq_self rfl ?_
    rw [getLastD_append _ _ hne]
    exact hld
  have hfv : fieldValue (str "- URL: " ++ d) = d := by
    unfold fieldValue
    rw [show (pySplitOnce ':' (str "- URL: " ++ d)).getD 1 [] = ' ' :: d from rfl,
      pyStrip_cons_space, pyStrip_eq_self hhd hld]
  simp only [parseStep]
  rw [hstrip]
  rw [if_neg (fun h => Bool.noConfusion h)]
  rw [if_neg (fun h => Bool.noConfusion h)]
  rw [if_neg (fun h => Bool.noConfusion h)]
  rw [if_neg (fun h => Bool.noConfusion h)]
  rw [if_neg (fun h => Bool.noConfusion h)]
  rw [if_pos (show strStarts (str "- URL:") (str "- URL: " ++ d) = true from rfl)]
  rw [hfv]

theorem eventNonEmpty_entryEvent (e : EntryFields) : eventNonEmpty (entryEvent e) = true :=
  rfl

theorem entryClean_parts {e : EntryFields} (h : entryClean e = true) :
    cleanStr e.etitle = true ∧ cleanStr e.edate = true ∧ cleanStr e.elocation = true ∧
      cleanStr e.edescription = true ∧ cleanStr e.eurl = true := by
  unfold entryClean at h
  cases hb1 : cleanStr e.etitle <;> cases hb2 : cleanStr e.edate <;>
    cases hb3 : cleanStr e.elocation <;> cases hb4 : cleanStr e.edescription <;>
      cases hb5 : cleanStr e.eurl <;> simp_all

theorem foldl_parseStep_entry (label : Str) (e : EntryFields) (rest : List Str)
    (evs : List Event) (cur : Event) (hl : labelOk label = true)
    (he : entryClean e = true) :
    (renderEntry label e ++ rest).foldl parseStep (evs, cur) =
      rest.foldl parseStep
        (if eventNonEmpty cur then evs ++ [cur] else evs, entryEvent e) := by
  obtain ⟨h1, h2, h3, h4, h5⟩ := entryClean_parts he
  simp only [renderEntry, List.cons_append, List.nil_append, List.foldl_cons]
  rw [parseStep_title evs cur label e.etitle hl h1]
  rw [parseStep_date _ _ _ h2]
  rw [parseStep_location _ _ _ h3]
  rw [parseStep_description _ _ _ h4]
  rw [parseStep_url _ _ _ h5]
  rfl

theorem pySplit_append_noNL (a b : Str) (h : noNL a = true) :
    pySplit '\n' (a ++ '\n' :: b) = a :: pySplit '\n' b := by
  induction a with
  | nil => simp [pySplit]
  | cons c a' ih =>
    simp only [noNL, List.all_cons, Bool.and_eq_true, decide_eq_true_eq] at h
    obtain ⟨hc, ha'⟩ := h
    simp only [List.cons_append, pySplit, if_neg hc, List.append_eq]
    rw [ih ha']

theorem pySplit_noNL (a : Str) (h : noNL a = true) : pySplit '\n' a = [a] := by
  induction a with
  | nil => rfl
  | cons c a' ih =>
    simp only [noNL, List.all_cons, Bool.and_eq_true, decide_eq_true_eq] at h
    obtain ⟨hc, ha'⟩ := h
    simp only [pySplit, if_neg hc]
    rw [ih ha']

theorem pySplit_joinWith (ls : List Str) (hne : ls ≠ [])
    (h : ∀ l ∈ ls, noNL l = true) : pySplit '\n' (joinWith '\n' ls) = ls := by
  induction ls with
  | nil => exact absurd rfl hne
  | cons l ls' ih =>
    cases ls' with
    | nil => exact pySplit_noNL l (h l (List.mem_cons_self l []))
    | cons l2 rest =>
      rw [show joinWith '\n' (l :: l2 :: rest) = l ++ '\n' :: joinWith '\n' (l2 :: rest)
          from rfl,
        pySplit_append_noNL _ _ (h l (List.mem_cons_self l (l2 :: rest))),
        ih (by simp) (fun x hx => h x (List.mem_cons_of_mem l hx))]

theorem noNL_append (a b : Str) : noNL (a ++ b) = (noNL a && noNL b) := by
  simp [noNL, List.all_append]

theorem noNL_of_clean {s : Str} (h : cleanStr s = true) : noNL s = true :=
  (cleanStr_parts h).2.1

theorem noNL_of_labelOk {l : Str} (h : labelOk l = true) : noNL l = true := by
  obtain ⟨-, hdig⟩ := labelOk_parts h
  simp only [noNL, List.all_eq_true, decide_eq_true_eq]
  intro c hc heq
  have hd := hdig c hc
  rw [heq] at hd
  exact absurd hd (by decide)

theorem renderEntry_noNL (label : Str) (e : EntryFields) (hl : labelOk label = true)
    (he : entryClean e = true) : ∀ l ∈ renderEntry label e, noNL l = true := by
  obtain ⟨h1, h2, h3, h4, h5⟩ := entryClean_parts he
  intro l hlmem
  simp only [renderEntry, List.mem_cons, List.not_mem_nil, or_false] at hlmem
  rcases hlmem with rfl | rfl | rfl | rfl | rfl
  · rw [noNL_append, noNL_append, noNL_append, noNL_of_labelOk hl, noNL_of_clean h1]
    decide
  · rw [noNL_append, noNL_of_clean h2]
    decide
  · rw [noNL_append, noNL_of_clean h3]
    decide
  · rw [noNL_append, noNL_of_clean h4]
    decide
  · rw [noNL_append, noNL_of_clean h5]
    decide

theorem foldl_parseStep_entries (entries : List (Str × EntryFields)) (evs : List Event)
    (cur : Event) (hl : ∀ p ∈ entries, labelOk p.1 = true)
    (hc : ∀ p ∈ entries, entryClean p.2 = true) :
    finishParse
        (((entries.map (fun p => renderEntry p.1 p.2)).flatten).foldl parseStep (evs, cur)) =
      finishParse (evs, cur) ++ entries.map (fun p => entryEvent p.2) := by
  induction entries generalizing evs cur with
  | nil => simp
  | cons p rest ih =>
    simp only [List.map_cons, List.flatten_cons]
    rw [foldl_parseStep_entry p.1 p.2 _ evs cur (hl p (List.mem_cons_self p rest))
      (hc p (List.mem_cons_self p rest))]
    rw [ih _ _ (fun q hq => hl q (List.mem_cons_of_mem p hq))
      (fun q hq => hc q (List.mem_cons_of_mem p hq))]
    by_cases hcur : eventNonEmpty cur = true <;>
      simp [finishParse, hcur, eventNonEmpty_entryEvent]

/- Lemmas about the Event Parser on inert input lines. -/

theorem parseStep_benign (st : List Event × Event) (rawLine : Str)
    (h : benignLine (pyStrip rawLine) = true) : parseStep st rawLine = st := by
  unfold parseStep benignLine at *
  cases hb1 : (pyStrip rawLine).isEmpty <;>
    cases hb2 : strStarts (str "### Events in") (pyStrip rawLine) <;>
      cases hb3 : ((pyStrip rawLine).headD ' ').isDigit <;>
        cases hb4 : strContains (str ". **") (pyStrip rawLine) <;>
          cases hb5 : strStarts (str "- Date:") (pyStrip rawLine) <;>
            cases hb6 : strStarts (str "- Location:") (pyStrip rawLine) <;>
              cases hb7 : strStarts (str "- Description:") (pyStrip rawLine) <;>
                cases hb8 : strStarts (str "- URL:") (pyStrip rawLine) <;>
                  simp_all

theorem foldl_parseStep_benign (lines : List Str) (st : List Event × Event)
    (h : ∀ l ∈ lines, benignLine (pyStrip l) = true) :
    lines.foldl parseStep st = st := by
  induction lines generalizing st with
  | nil => rfl
  | cons l rest ih =>
    rw [List.foldl_cons, parseStep_benign st l (h l (List.mem_cons_self l rest))]
    exact ih st (fun l' hl' => h l' (List.mem_cons_of_mem l hl'))

/-- C6 counterexample: on the input consisting of the single line
"- Date: March 25" — a field-label line before any numbered title line —
the parser returns one event object carrying that date and no title, so
field labels before a title are not dropped and a returned event need not
contain a title. -/
theorem C6_field_label_before_title_counterexample :
    parse_events (str "- Date: March 25") = [{ date := some (str "March 25") }] ∧
      ({ date := some (str "March 25") } : Event).title = none := by
  decide

/-- C6 (amended): the (total) parser returns the empty sequence on empty
input and on input all of whose stripped lines are inert (empty, the known
section header, or matching no recognised pattern); a field-label line
before any numbered title, however, is accumulated into the current event
and can be flushed as an event object without a title. -/
theorem C6_parser_robustness (raw : Str)
    (h : ∀ l ∈ pySplit '\n' raw, benignLine (pyStrip l) = true) :
    parse_events (str "") = [] ∧
      parse_events raw = [] ∧
      parse_events (str "- Date: March 25") = [{ date := some (str "March 25") }] := by
  refine ⟨by decide, ?_, by decide⟩
  unfold parse_events
  rw [foldl_parseStep_benign _ _ h]
  decide

/-- C6 witness: a concrete input of unrecognised chatter lines parses to
the empty sequence. -/
theorem C6_parser_robustness_witness :
    parse_events (str "") = [] ∧
      parse_events (str "random chatter\nanother plain line") = [] ∧
      parse_events (str "- Date: March 25") = [{ date := some (str "March 25") }] :=
  C6_parser_robustness (str "random chatter\nanother plain line") (by decide)

/-- C7: for every well-formed block of N numbered entries — each a digit
label, a bold-marked title line, then Date/Location/Description/URL field
lines with clean values — the parser returns exactly min(N, max_results)
events (max_results = 5) in input order, fields verbatim, with the
description truncated to max_description_length (= 300) characters. -/
theorem C7_parser_roundtrip (entries : List (Str × EntryFields))
    (hl : ∀ p ∈ entries, labelOk p.1 = true)
    (hc : ∀ p ∈ entries, entryClean p.2 = true) :
    parse_events (renderBlock entries) =
        (entries.map (fun p => entryEvent p.2)).take max_results ∧
      (parse_events (renderBlock entries)).length = min entries.length max_results := by
  have hmain : parse_events (renderBlock entries) =
      (entries.map (fun p => entryEvent p.2)).take max_results := by
    cases entries with
    | nil => decide
    | cons p rest =>
      unfold parse_events renderBlock
      rw [pySplit_joinWith _ (by simp [renderEntry]) ?_]
      · rw [foldl_parseStep_entries _ [] emptyEvent hl hc]
        rfl
      · intro l hlm
        rw [List.mem_flatten] at hlm
        obtain ⟨L, hL, hlL⟩ := hlm
        obtain ⟨q, hq, rfl⟩ := List.mem_map.mp hL
        exact renderEntry_noNL q.1 q.2 (hl q hq) (hc q hq) l hlL
  refine ⟨hmain, ?_⟩
  rw [hmain, List.length_take, List.length_map, Nat.min_comm]

/-- C7 witness: a concrete two-entry block round-trips through the parser. -/
theorem C7_parser_roundtrip_witness :
    parse_events (renderBlock
        [(str "1", ⟨str "Jazz Night", str "March 25, 2024", str "Blue Hall",
            str "Live jazz.", str "https://x/a"⟩),
         (str "2", ⟨str "Tech Expo", str "April 2, 2024", str "Dock 3",
            str "Demos.", str "https://x/b"⟩)]) =
        (([(str "1", (⟨str "Jazz Night", str "March 25, 2024", str "Blue Hall",
              str "Live jazz.", str "https://x/a"⟩ : EntryFields)),
           (str "2", (⟨str "Tech Expo", str "April 2, 2024", str "Dock 3",
              str "Demos.", str "https://x/b"⟩ : EntryFields))].map
            (fun p => entryEvent p.2)).take max_results) ∧
      (parse_events (renderBlock
          [(str "1", ⟨str "Jazz Night", str "March 25, 2024", str "Blue Hall",
              str "Live jazz.", str "https://x/a"⟩),
           (str "2", ⟨str "Tech Expo", str "April 2, 2024", str "Dock 3",
              str "Demos.", str "https://x/b"⟩)])).length =
        min ([(str "1", (⟨str "Jazz Night", str "March 25, 2024", str "Blue Hall",
              str "Live jazz.", str "https://x/a"⟩ : EntryFields)),
             (str "2", (⟨str "Tech Expo", str "April 2, 2024", str "Dock 3",
              str "Demos.", str "https://x/b"⟩ : EntryFields))] :
            List (Str × EntryFields)).length max_results :=
  C7_parser_roundtrip
    [(str "1", ⟨str "Jazz Night", str "March 25, 2024", str "Blue Hall",
        str "Live jazz.", str "https://x/a"⟩),
     (str "2", ⟨str "Tech Expo", str "April 2, 2024", str "Dock 3",
        str "Demos.", str "https://x/b"⟩)] (by decide) (by decide)

theorem skip_notification_iff (expireSeconds now : Int) (sentEvents : List (Str × Int))
    (h : Str) :
    skip_notification expireSeconds now sentEvents h = true ↔
      ∃ t, dictGet h sentEvents = some t ∧ now - t < expireSeconds := by
  unfold skip_notification
  cases dictGet h sentEvents <;> simp

theorem delivered_foldl_step (expireSeconds now : Int) (sentEvents : List (Str × Int))
    (events : List Event) (st : NotifyState) :
    (events.foldl (send_event_notifications_step expireSeconds now sentEvents) st).delivered =
      st.delivered ++
        events.filter
          (fun ev => !skip_notification expireSeconds now sentEvents (generate_event_hash ev)) := by
  induction events generalizing st with
  | nil => simp
  | cons ev rest ih =>
    by_cases hskip :
        skip_notification expireSeconds now sentEvents (generate_event_hash ev) = true
    · simp [send_event_notifications_step, hskip, List.filter_cons, ih]
    · simp only [List.foldl_cons, List.filter_cons]
      rw [ih]
      simp [send_event_notifications_step, hskip]

theorem db_now_foldl_step (expireSeconds now : Int) (sentEvents : List (Str × Int))
    (events : List Event) (st : NotifyState) (h : Str)
    (hyp : dictGet h st.db = some now ∨
      ∃ ev ∈ events, generate_event_hash ev = h ∧
        skip_notification expireSeconds now sentEvents (generate_event_hash ev) = false) :
    dictGet h
        ((events.foldl (send_event_notifications_step expireSeconds now sentEvents) st).db) =
      some now := by
  induction events generalizing st with
  | nil =>
    rcases hyp with hdb | ⟨ev, hmem, _⟩
    · exact hdb
    · cases hmem
  | cons ev rest ih =>
    by_cases hskip :
        skip_notification expireSeconds now sentEvents (generate_event_hash ev) = true
    · refine ih _ ?_
      rcases hyp with hdb | ⟨ev', hmem, hh, hns⟩
      · exact Or.inl (by simpa [send_event_notifications_step, hskip] using hdb)
      · rcases List.mem_cons.mp hmem with rfl | hmem'
        · exact absurd hskip (by simp [hns])
        · exact Or.inr ⟨ev', hmem', hh, hns⟩
    · refine ih _ ?_
      by_cases hh : generate_event_hash ev = h
      · left
        rw [hh] at hskip
        simp [send_event_notifications_step, hskip, hh, dictGet_dictInsert_self]
      · rcases hyp with hdb | ⟨ev', hmem, hh', hns⟩
        · left
          simpa [send_event_notifications_step, hskip,
            dictGet_dictInsert_ne _ _ (fun he => hh (he.symm))] using hdb
        · rcases List.mem_cons.mp hmem with rfl | hmem'
          · exact absurd hh' hh
          · exact Or.inr ⟨ev', hmem', hh', hns⟩

/-- C1: in one Notification Cycle run an event is delivered iff it is not
suppressed — suppressed exactly when its identity is in sent-history with a
timestamp T and now - T < the expiry window; every delivered event has the
current time recorded against its identity; with the default 7-day window
an identity recorded at T is suppressed at T + 6 days and eligible again at
T + 8 days. -/
theorem C1_expiry_gated_redelivery (expireSeconds now : Int)
    (sentEvents : List (Str × Int)) (pending : List (Str × Event)) (events : List Event) :
    (∀ ev, ev ∈ (send_event_notifications_user expireSeconds now sentEvents pending
          events).delivered ↔
        ev ∈ events ∧
          ¬∃ t, dictGet (generate_event_hash ev) sentEvents = some t ∧
            now - t < expireSeconds) ∧
      (∀ ev ∈ events,
        (¬∃ t, dictGet (generate_event_hash ev) sentEvents = some t ∧
            now - t < expireSeconds) →
        dictGet (generate_event_hash ev)
            (send_event_notifications_user expireSeconds now sentEvents pending events).db =
          some now) ∧
      (∀ (h : Str) (T : Int),
        skip_notification (notification_expire_days * 86400)
            (T + (notification_expire_days - 1) * 86400) [(h, T)] h = true ∧
          skip_notification (notification_expire_days * 86400)
            (T + (notification_expire_days + 1) * 86400) [(h, T)] h = false) := by
  refine ⟨?_, ?_, ?_⟩
  · intro ev
    unfold send_event_notifications_user
    rw [delivered_foldl_step]
    simp only [List.nil_append, List.mem_filter, Bool.not_eq_true']
    rw [Bool.eq_false_iff, Ne, skip_notification_iff]
  · intro ev hmem hne
    unfold send_event_notifications_user
    refine db_now_foldl_step _ _ _ _ _ _ (Or.inr ⟨ev, hmem, rfl, ?_⟩)
    rw [Bool.eq_false_iff, Ne, skip_notification_iff]
    exact hne
  · intro h T
    constructor <;> simp [skip_notification, dictGet, notification_expire_days]

/-- C1 witness: an event with no sent-history entry is delivered and has the
cycle time recorded. -/
theorem C1_expiry_gated_redelivery_witness :
    ({ title := some (str "T") } : Event) ∈
        (send_event_notifications_user 604800 1000 [] []
          [{ title := some (str "T") }]).delivered ∧
      dictGet (generate_event_hash { title := some (str "T") })
          (send_event_notifications_user 604800 1000 [] []
            [{ title := some (str "T") }]).db = some 1000 := by
  have h := C1_expiry_gated_redelivery 604800 1000 [] [] [{ title := some (str "T") }]
  have hne : ¬∃ t : Int,
      dictGet (generate_event_hash ({ title := some (str "T") } : Event))
          ([] : List (Str × Int)) = some t ∧ 1000 - t < 604800 := by
    simp [dictGet]
  exact ⟨(h.1 _).mpr ⟨by decide, hne⟩, h.2.1 _ (by decide) hne⟩

/- Lemmas about the Category Search Dispatcher aggregation. -/

theorem search_events_aggregate_eq_flatten (results : List (List Event)) :
    search_events_aggregate results =
      results.flatten.foldl
        (fun m event => dictInsert (generate_event_hash event) event m) [] := by
  unfold search_events_aggregate
  generalize ([] : List (Str × Event)) = m
  induction results generalizing m with
  | nil => simp
  | cons evs rest ih => simp [List.foldl_append, ih]

theorem inv_foldl_insert (evs : List Event) (m : List (Str × Event))
    (hm : ∀ p ∈ m, p.1 = generate_event_hash p.2) :
    ∀ p ∈ evs.foldl (fun m event => dictInsert (generate_event_hash event) event m) m,
      p.1 = generate_event_hash p.2 := by
  induction evs generalizing m with
  | nil => exact hm
  | cons ev rest ih =>
    refine ih _ (fun p hp => ?_)
    rcases mem_dictInsert hp with rfl | hp'
    · rfl
    · exact hm p hp'

theorem nodupKeys_foldl_insert (evs : List Event) (m : List (Str × Event))
    (hm : (m.map Prod.fst).Nodup) :
    ((evs.foldl (fun m event => dictInsert (generate_event_hash event) event m) m).map
      Prod.fst).Nodup := by
  induction evs generalizing m with
  | nil => exact hm
  | cons ev rest ih => exact ih _ (nodupKeys_dictInsert _ _ hm)

theorem dictGet_foldl_insert (h : Str) (evs : List Event) :
    ∀ m : List (Str × Event),
      ((evs.filter (fun e => generate_event_hash e = h)) = [] →
        dictGet h
            (evs.foldl (fun m event => dictInsert (generate_event_hash event) event m) m) =
          dictGet h m) ∧
      (∀ e, (evs.filter (fun e => generate_event_hash e = h)).getLast? = some e →
        dictGet h
            (evs.foldl (fun m event => dictInsert (generate_event_hash event) event m) m) =
          some e) := by
  induction evs with
  | nil => exact fun m => ⟨fun _ => rfl, fun e he => by simp at he⟩
  | cons ev rest ih =>
    intro m
    by_cases hh : generate_event_hash ev = h
    · constructor
      · intro hfl
        simp [List.filter_cons, hh] at hfl
      · intro e he
        rw [List.filter_cons_of_pos (by simp [hh])] at he
        cases hrest : (rest.filter (fun e => generate_event_hash e = h)).getLast? with
        | none =>
          have hfl : rest.filter (fun e => generate_event_hash e = h) = [] :=
            List.getLast?_eq_none_iff.mp hrest
          rw [List.getLast?_cons, hrest] at he
          simp only [Option.getD_none, Option.some.injEq] at he
          subst he
          simp only [List.foldl_cons]
          rw [(ih _).1 hfl, hh, dictGet_dictInsert_self]
        | some e' =>
          rw [List.getLast?_cons, hrest] at he
          simp only [Option.getD_some, Option.some.injEq] at he
          subst he
          simp only [List.foldl_cons]
          exact (ih _).2 e' hrest
    · have hfc : (ev :: rest).filter (fun e => generate_event_hash e = h) =
          rest.filter (fun e => generate_event_hash e = h) :=
        List.filter_cons_of_neg (by simp [hh])
      constructor
      · intro hfl
        rw [hfc] at hfl
        simp only [List.foldl_cons]
        rw [(ih _).1 hfl, dictGet_dictInsert_ne _ _ (fun he => hh he.symm)]
      · intro e he
        rw [hfc] at he
        simp only [List.foldl_cons]
        exact (ih _).2 e he

/-- C3: the dispatcher's aggregated event set holds at most one event per
identity; the event kept for an identity is the last one (in category order)
carrying that identity, so a later category's event replaces an earlier
one; two categories returning the same (title, date, location) with
different descriptions collapse to the later single entry. -/
theorem C3_dispatcher_dedup (results : List (List Event)) :
    (∀ h : Str,
        (search_events results).countP (fun e => generate_event_hash e = h) ≤ 1) ∧
      (∀ ev ∈ search_events results,
        (results.flatten.filter
            (fun e => generate_event_hash e = generate_event_hash ev)).getLast? = some ev) ∧
      search_events
          [[{ title := some (str "T"), date := some (str "D"), location := some (str "L"),
              description := some (str "one") }],
           [{ title := some (str "T"), date := some (str "D"), location := some (str "L"),
              description := some (str "two") }]] =
        [{ title := some (str "T"), date := some (str "D"), location := some (str "L"),
           description := some (str "two") }] := by
  have hinv : ∀ p ∈ search_events_aggregate results, p.1 = generate_event_hash p.2 := by
    rw [search_events_aggregate_eq_flatten]
    exact inv_foldl_insert _ _ (by simp)
  have hnd : ((search_events_aggregate results).map Prod.fst).Nodup := by
    rw [search_events_aggregate_eq_flatten]
    exact nodupKeys_foldl_insert _ _ (by simp)
  refine ⟨?_, ?_, by decide⟩
  · intro h
    unfold search_events
    rw [List.countP_map]
    calc (search_events_aggregate results).countP
          ((fun e => decide (generate_event_hash e = h)) ∘ Prod.snd)
        = (search_events_aggregate results).countP (fun p => p.1 = h) := by
          refine List.countP_congr (fun p hp => ?_)
          simp [Function.comp, hinv p hp]
      _ ≤ 1 := countP_keys_le_one hnd h
  · intro ev hev
    unfold search_events at hev
    obtain ⟨q, hq, hq2⟩ := List.mem_map.mp hev
    have hkey : q.1 = generate_event_hash ev := by rw [hinv q hq, hq2]
    have hget : dictGet (generate_event_hash ev) (search_events_aggregate results) = some ev := by
      rw [← hkey, ← hq2]
      exact dictGet_of_mem_nodup hnd hq
    rw [search_events_aggregate_eq_flatten] at hget
    cases hfl : (results.flatten.filter
        (fun e => generate_event_hash e = generate_event_hash ev)).getLast? with
    | none =>
      have := (dictGet_foldl_insert (generate_event_hash ev) results.flatten []).1
        (List.getLast?_eq_none_iff.mp hfl)
      rw [this] at hget
      simp [dictGet] at hget
    | some e =>
      have := (dictGet_foldl_insert (generate_event_hash ev) results.flatten []).2 e hfl
      rw [this] at hget
      simp only [Option.some.injEq] at hget
      rw [hget]

/-- C3 witness: the dedup bound and the last-entry characterisation
evaluated on a concrete duplicated pair of category results. -/
theorem C3_dispatcher_dedup_witness :
    ((search_events [[{ title := some (str "T"), date := some (str "D") }],
          [{ title := some (str "T"), date := some (str "D") }]]).countP
        (fun e => generate_event_hash e = str "TD") ≤ 1) ∧
      ((([[{ title := some (str "T"), date := some (str "D") }],
            [{ title := some (str "T"), date := some (str "D") }]] :
              List (List Event)).flatten.filter
          (fun e => generate_event_hash e =
            generate_event_hash ({ title := some (str "T"), date := some (str "D") } : Event))).getLast?
        = some { title := some (str "T"), date := some (str "D") }) := by
  have h := C3_dispatcher_dedup [[{ title := some (str "T"), date := some (str "D") }],
    [{ title := some (str "T"), date := some (str "D") }]]
  exact ⟨h.1 (str "TD"), h.2.1 _ (by decide)⟩

/-- C4: for a well-formed two-part feedback payload, an email dispatch is
attempted iff the action is "like", the profile exists with a non-empty
email, and the pending-detail cache has the event identity; a non-"like"
action only records the vote and acknowledges; on a like with email but a
cache miss the user is told the detail is unavailable. -/
theorem C4_feedback_email_gating (user_id : Int) (payload action event_hash : Str)
    (env : FeedbackEnv) (hdata : pySplit '_' payload = [action, event_hash]) :
    ((handle_feedback user_id payload env).emailTo.isSome = true ↔
        action = str "like" ∧
          (∃ p, dictGet user_id env.user_profiles = some p ∧ p.email ≠ []) ∧
          (dictGet event_hash env.pending_event_details).isSome = true) ∧
      (action ≠ str "like" →
        handle_feedback user_id payload env =
          { env := { env with
              feedbackStore := dictInsert (user_id, event_hash) (-1) env.feedbackStore }
            emailTo := none, answers := [.avoidSimilarEvents] }) ∧
      (action = str "like" →
        (∃ p, dictGet user_id env.user_profiles = some p ∧ p.email ≠ []) →
        dictGet event_hash env.pending_event_details = none →
        FeedbackAnswer.eventDetailsNotFound ∈ (handle_feedback user_id payload env).answers) := by
  simp only [handle_feedback, hdata]
  refine ⟨?_, ?_, ?_⟩
  · by_cases ha : action = str "like"
    · subst ha
      cases hprof : dictGet user_id env.user_profiles with
      | none => simp [hprof]
      | some p =>
        by_cases hmail : p.email = []
        · simp [hprof, hmail]
        · cases hpend : dictGet event_hash env.pending_event_details with
          | none => simp [hprof, hmail, hpend]
          | some ev => simp [hprof, hmail, hpend]
    · simp [ha]
  · intro hne
    simp [hne]
  · intro ha hp hpend
    obtain ⟨p, hprof, hmail⟩ := hp
    subst ha
    simp [hprof, hmail, hpend]

/-- C4 witness: the gating evaluated for a like from a user with an email
but an empty pending cache. -/
theorem C4_feedback_email_gating_witness :
    ((handle_feedback 7 (str "like_ab")
          ⟨[(7, { email := str "u@x" })], [], []⟩).emailTo.isSome = true ↔
        str "like" = str "like" ∧
          (∃ p, dictGet 7 (⟨[(7, { email := str "u@x" })], [], []⟩ : FeedbackEnv).user_profiles =
              some p ∧ p.email ≠ []) ∧
          (dictGet (str "ab")
            (⟨[(7, { email := str "u@x" })], [], []⟩ : FeedbackEnv).pending_event_details).isSome
            = true) ∧
      (str "like" ≠ str "like" →
        handle_feedback 7 (str "like_ab") ⟨[(7, { email := str "u@x" })], [], []⟩ =
          { env := { (⟨[(7, { email := str "u@x" })], [], []⟩ : FeedbackEnv) with
              feedbackStore := dictInsert (7, str "ab") (-1) [] }
            emailTo := none, answers := [.avoidSimilarEvents] }) ∧
      (str "like" = str "like" →
        (∃ p, dictGet 7 (⟨[(7, { email := str "u@x" })], [], []⟩ : FeedbackEnv).user_profiles =
            some p ∧ p.email ≠ []) →
        dictGet (str "ab")
            (⟨[(7, { email := str "u@x" })], [], []⟩ : FeedbackEnv).pending_event_details = none →
        FeedbackAnswer.eventDetailsNotFound ∈
          (handle_feedback 7 (str "like_ab")
            ⟨[(7, { email := str "u@x" })], [], []⟩).answers) :=
  C4_feedback_email_gating 7 (str "like_ab") (str "like") (str "ab")
    ⟨[(7, { email := str "u@x" })], [], []⟩ (by decide)

/-- C5: after any sequence of feedback invocations the feedback store keeps
at most one row per (user, event-identity) pair — last write wins: liking
twice leaves one row with value +1, like then dislike leaves one row with
value -1. -/
theorem C5_feedback_store_one_row (ops : List (Int × Str)) (env : FeedbackEnv)
    (h : (env.feedbackStore.map Prod.fst).Nodup) :
    (((runFeedbacks ops env).feedbackStore).map Prod.fst).Nodup ∧
      (∀ k : Int × Str, (runFeedbacks ops env).feedbackStore.countP (fun r => r.1 = k) ≤ 1) ∧
      (runFeedbacks [(7, str "like_ab"), (7, str "like_ab")]
          ⟨[], [], []⟩).feedbackStore = [((7, str "ab"), 1)] ∧
      (runFeedbacks [(7, str "like_ab"), (7, str "dislike_ab")]
          ⟨[], [], []⟩).feedbackStore = [((7, str "ab"), -1)] := by
  have hnd := nodupKeys_runFeedbacks ops env h
  exact ⟨hnd, fun k => countP_keys_le_one hnd k, by decide, by decide⟩

/-- C5 witness: the at-most-one-row bound evaluated on a concrete sequence
of three votes by two users. -/
theorem C5_feedback_store_one_row_witness :
    (((runFeedbacks [(7, str "like_ab"), (9, str "dislike_cd"), (7, str "dislike_ab")]
          ⟨[], [], []⟩).feedbackStore).map Prod.fst).Nodup ∧
      (∀ k : Int × Str,
        (runFeedbacks [(7, str "like_ab"), (9, str "dislike_cd"), (7, str "dislike_ab")]
            ⟨[], [], []⟩).feedbackStore.countP (fun r => r.1 = k) ≤ 1) ∧
      (runFeedbacks [(7, str "like_ab"), (7, str "like_ab")]
          ⟨[], [], []⟩).feedbackStore = [((7, str "ab"), 1)] ∧
      (runFeedbacks [(7, str "like_ab"), (7, str "dislike_ab")]
          ⟨[], [], []⟩).feedbackStore = [((7, str "ab"), -1)] :=
  C5_feedback_store_one_row [(7, str "like_ab"), (9, str "dislike_cd"), (7, str "dislike_ab")]
    ⟨[], [], []⟩ (by decide)

/-- C9: a legacy list-shaped sent-history reads as a mapping whose keys are
exactly the listed identities, each with timestamp zero — so once the
current time has passed any positive expiry window every legacy entry is
eligible for redelivery — and the next write through add_sent_event stores
the timestamped mapping form. -/
theorem C9_legacy_sent_history (ids : List Str) :
    (∀ ev, dictGet ev (get_sent_events (.legacyList ids)) =
        if ev ∈ ids then some 0 else none) ∧
      (∀ expireSeconds now : Int, 0 < expireSeconds → expireSeconds ≤ now →
        ∀ ev ∈ ids,
          skip_notification expireSeconds now (get_sent_events (.legacyList ids)) ev = false) ∧
      (∀ (event_hash : Str) (now : Int), ∃ m,
        add_sent_event event_hash now (.legacyList ids) = .timedMap m ∧
          dictGet event_hash m = some now) := by
  have hget : ∀ ev, dictGet ev (get_sent_events (.legacyList ids)) =
      if ev ∈ ids then some 0 else none := by
    intro ev
    simp only [get_sent_events]
    induction ids with
    | nil => simp [dictGet]
    | cons i rest ih =>
      by_cases hi : i = ev
      · subst hi
        simp [dictGet]
      · simp [dictGet, hi, ih, Ne.symm hi]
  refine ⟨hget, ?_, ?_⟩
  · intro expireSeconds now _ hle ev hev
    simp only [skip_notification, hget ev, if_pos hev]
    simpa using not_lt.mpr hle
  · intro event_hash now
    exact ⟨_, rfl, dictGet_dictInsert_self _ _ _⟩

/-- C9 witness: the legacy conversion, expiry eligibility and upgraded
write evaluated on a concrete two-identity legacy record. -/
theorem C9_legacy_sent_history_witness :
    (dictGet (str "a") (get_sent_events (.legacyList [str "a", str "b"])) =
        if str "a" ∈ [str "a", str "b"] then some 0 else none) ∧
      skip_notification 604800 604800 (get_sent_events (.legacyList [str "a", str "b"]))
          (str "a") = false ∧
      (∃ m, add_sent_event (str "c") 50 (.legacyList [str "a", str "b"]) = .timedMap m ∧
        dictGet (str "c") m = some 50) := by
  obtain ⟨h1, h2, h3⟩ := C9_legacy_sent_history [str "a", str "b"]
  exact ⟨h1 (str "a"),
    h2 604800 604800 (by decide) (by decide) (str "a") (by decide),
    h3 (str "c") 50⟩

theorem C10_non_like_records_dislike_witness :
    (handle_feedback 7 (str "superlike_ab")
          ⟨[(7, { email := str "u@x" })], [(str "ab", { title := some (str "T") })], []⟩).env.feedbackStore =
        dictInsert (7, str "ab") (-1) [] ∧
      dictGet (7, str "ab")
          (handle_feedback 7 (str "superlike_ab")
            ⟨[(7, { email := str "u@x" })], [(str "ab", { title := some (str "T") })], []⟩).env.feedbackStore =
        some (-1) ∧
      (handle_feedback 7 (str "superlike_ab")
          ⟨[(7, { email := str "u@x" })], [(str "ab", { title := some (str "T") })], []⟩).emailTo = none ∧
      (handle_feedback 7 (str "superlike_ab")
          ⟨[(7, { email := str "u@x" })], [(str "ab", { title := some (str "T") })], []⟩).answers =
        [.avoidSimilarEvents] :=
  C10_non_like_records_dislike 7 (str "superlike_ab") (str "superlike") (str "ab") _
    (by decide) (by decide)

end BubbleEvents
